import Mathlib

/-!
Shallow embedding of `src/find.cpp` (a small `find`-like utility) and
verification of its specification claims.

Machine-integer conventions of the source platform (x86-64 Linux):
`ino_t`, `nlink_t` and `unsigned long` are unsigned 64-bit (modelled as
`Nat`, reduced modulo `2^64` where overflow can occur); `off_t` and the
`int64_t size_sign` are signed 64-bit (modelled as `Int`).
-/

namespace OsFind

/-- NOSIZE is `INT64_MAX`, the sentinel stored in `size_sign` while no
size filter is configured (`#define NOSIZE INT64_MAX`). -/
def NOSIZE : Int := 9223372036854775807

/-- Embedding of the `struct usage` filter-configuration record.  The C
struct leaves `inum`, `size` and `nlinks` uninitialized; they are read
only under the corresponding `needs_*` flag, and we give them arbitrary
defaults.  The `needs_*` members are C `int`s that the code sets to `1`
and tests for non-zeroness. -/
structure usage where
  path : String
  needs_inum : Nat := 0
  inum : Nat := 0
  needs_name : Nat := 0
  name : String := ""
  size_sign : Int := NOSIZE
  size : Int := 0
  needs_nlinks : Nat := 0
  nlinks : Nat := 0
  needs_exec : Nat := 0
  exec_path : String := ""
deriving DecidableEq, Repr

/-- Embedding of the fields of `struct stat` that the program reads:
inode number, size in bytes, hardlink count, and `S_ISDIR(st_mode)`. -/
structure Stat where
  st_ino : Nat
  st_size : Int
  st_nlink : Nat
  isDir : Bool
deriving DecidableEq, Repr

/-- Embedding of `check` (find.cpp lines 93-120): starts from
`satisfy = true` and `&=`s each configured filter in source order
(nlinks, name, inum, size). -/
def check (u : usage) (sb : Stat) (name : String) : Bool :=
  let s0 := true
  let s1 := if u.needs_nlinks ≠ 0 then s0 && decide (u.nlinks = sb.st_nlink) else s0
  let s2 := if u.needs_name ≠ 0 then s1 && decide (u.name = name) else s1
  let s3 := if u.needs_inum ≠ 0 then s2 && decide (u.inum = sb.st_ino) else s2
  if u.size_sign ≠ NOSIZE then
    if u.size_sign = -1 then s3 && decide (sb.st_size < u.size)
    else if u.size_sign = 0 then s3 && decide (sb.st_size = u.size)
    else if u.size_sign = 1 then s3 && decide (sb.st_size > u.size)
    else s3
  else s3

/-- Spec-side reading of the matcher contract: the entry satisfies every
active (configured) filter; a filter that is not configured imposes no
constraint. -/
def satisfiesActive (u : usage) (sb : Stat) (name : String) : Prop :=
  (u.needs_nlinks ≠ 0 → u.nlinks = sb.st_nlink) ∧
  (u.needs_name ≠ 0 → u.name = name) ∧
  (u.needs_inum ≠ 0 → u.inum = sb.st_ino) ∧
  (u.size_sign ≠ NOSIZE →
    (u.size_sign = -1 → sb.st_size < u.size) ∧
    (u.size_sign = 0 → sb.st_size = u.size) ∧
    (u.size_sign = 1 → sb.st_size > u.size))

/-- A `usage` value is well-formed when its size field is either the
NOSIZE sentinel or one of the three parser-produced comparison tags. -/
def sizeWF (u : usage) : Prop :=
  u.size_sign = NOSIZE ∨ u.size_sign = -1 ∨ u.size_sign = 0 ∨ u.size_sign = 1

/-- The whitespace characters that `strtoul` (hence `std::stoul`) skips
before the number, per `isspace` in the C locale. -/
def isCSpace (c : Char) : Bool :=
  c = ' ' ∨ c = '\t' ∨ c = '\n' ∨ c = Char.ofNat 11 ∨ c = Char.ofNat 12 ∨ c = '\r'

/-- Value of a digit run, most significant first (the accumulation
`strtoul` performs in base 10). -/
def digitsVal (ds : List Char) : Nat :=
  ds.foldl (fun a c => a * 10 + (c.toNat - 48)) 0

/-- The two exceptions `std::stoul` can throw. -/
inductive StoulErr where
  | invalidArgument
  | outOfRange
deriving DecidableEq, Repr

/-- Embedding of `std::stoul(s)` (base 10): skip leading whitespace,
accept an optional `+` or `-` sign, then read a leading digit run,
ignoring any trailing garbage.  No digits throws `invalid_argument`; a
magnitude exceeding `ULONG_MAX` throws `out_of_range`; a `-` sign
negates the value in the unsigned return type, i.e. modulo `2^64`. -/
def stoul (s : String) : Except StoulErr Nat :=
  let cs := s.data.dropWhile isCSpace
  let negAndRest : Bool × List Char :=
    match cs with
    | '-' :: rest => (true, rest)
    | '+' :: rest => (false, rest)
    | _ => (false, cs)
  let ds := negAndRest.2.takeWhile Char.isDigit
  if ds = [] then .error .invalidArgument
  else if 2 ^ 64 ≤ digitsVal ds then .error .outOfRange
  else .ok (if negAndRest.1 then (2 ^ 64 - digitsVal ds) % 2 ^ 64 else digitsVal ds)

/-- Conversion of the unsigned `stoul` result to the signed 64-bit
`off_t` member `size` (two's-complement wraparound). -/
def toOff (n : Nat) : Int :=
  if n % 2 ^ 64 < 2 ^ 63 then ((n % 2 ^ 64 : Nat) : Int)
  else ((n % 2 ^ 64 : Nat) : Int) - 2 ^ 64

/-- How a run of the program can terminate abnormally during parsing:
`nullStringUB` is the undefined behaviour of constructing `std::string`
from `argv[argc]` (the null argv terminator) or a later out-of-bounds
slot; `exception e` is an uncaught exception thrown by `std::stoul`,
which aborts the process (failure status) with a runtime diagnostic. -/
inductive RunErr where
  | nullStringUB
  | exception (e : StoulErr)
deriving DecidableEq, Repr

/-- The observable outcome of `parse_arguments`: the returned `usage`
record together with the global `ok` flag and `reason` string it sets. -/
structure ParseResult where
  arguments : usage
  ok : Bool
  reason : String
deriving DecidableEq, Repr

/-- First character of the `-size` value (`value[0]`); on an empty
`std::string`, `operator[](0)` yields the null character. -/
def signChar (v : String) : Char :=
  v.data.headD (Char.ofNat 0)

/-- Embedding of the option loop of `parse_arguments` (find.cpp lines
49-89).  The list argument is the tail `argv[i..]` of the argument
vector; the loop body always constructs `value` from `argv[i+1]`
*before* inspecting the option, so a single trailing argument reads
`argv[argc]` — the null terminator — into `std::string`: undefined
behaviour, modelled as `RunErr.nullStringUB`. -/
def parseLoop (args : usage) : List String → Except RunErr ParseResult
  | [] => .ok ⟨args, true, ""⟩
  | [_] => .error .nullStringUB
  | option :: value :: rest =>
    if option = "-inum" then
      match stoul value with
      | .error e => .error (.exception e)
      | .ok n => parseLoop { args with needs_inum := 1, inum := n } rest
    else if option = "-name" then
      parseLoop { args with needs_name := 1, name := value } rest
    else if option = "-size" then
      if signChar value = '-' then
        match stoul (value.drop 1) with
        | .error e => .error (.exception e)
        | .ok n => parseLoop { args with size_sign := -1, size := toOff n } rest
      else if signChar value = '=' then
        match stoul (value.drop 1) with
        | .error e => .error (.exception e)
        | .ok n => parseLoop { args with size_sign := 0, size := toOff n } rest
      else if signChar value = '+' then
        match stoul (value.drop 1) with
        | .error e => .error (.exception e)
        | .ok n => parseLoop { args with size_sign := 1, size := toOff n } rest
      else .ok ⟨args, false, "Wrong usage of \"size\" option"⟩
    else if option = "-nlinks" then
      match stoul value with
      | .error e => .error (.exception e)
      | .ok n => parseLoop { args with needs_nlinks := 1, nlinks := n } rest
    else if option = "-exec" then
      parseLoop { args with needs_exec := 1, exec_path := value } rest
    else .ok ⟨args, false, "Unknown option"⟩

/-- Embedding of `parse_arguments` (find.cpp lines 46-91): read the
root path from `argv[1]` and run the option loop from index 2.  When
fewer than two arguments exist, `argv[1]` is the null terminator (or
past it) and `std::string(argv[1])` is undefined behaviour. -/
def parse_arguments : List String → Except RunErr ParseResult
  | _prog :: path :: rest => parseLoop { path := path } rest
  | _ => .error .nullStringUB

/-- Abstract filesystem against which the traversal runs: `readdir p`
is the child-name listing `opendir`/`readdir` produce for `p` (in
listing order, possibly containing "." and ".."), or `none` when
`opendir` fails; `lstat p` is the link-unaware metadata of `p`, or
`none` when `lstat` fails. -/
structure FS where
  readdir : String → Option (List String)
  lstat : String → Option Stat

/-- Embedding of the inner `readdir` loop of `find` (find.cpp lines
133-154) over the children of `cur`: skip "." and ".."; `lstat` each
remaining child (a failure skips just that child); classify directories
into the first output list (to be enqueued) and record matching
non-directories in the second (in listing order). -/
def processEntries (fs : FS) (u : usage) (cur : String) :
    List String → List String × List String
  | [] => ([], [])
  | name :: rest =>
    if name = "." ∨ name = ".." then processEntries fs u cur rest
    else
      match fs.lstat (cur ++ "/" ++ name) with
      | none => processEntries fs u cur rest
      | some sb =>
        let p := processEntries fs u cur rest
        if sb.isDir then ((cur ++ "/" ++ name) :: p.1, p.2)
        else if check u sb name then (p.1, (cur ++ "/" ++ name) :: p.2)
        else p

/-- Embedding of the outer queue loop of `find` (find.cpp lines
125-156): dequeue a directory; if `opendir` fails, log and continue
with the rest of the queue; otherwise enqueue its child directories
after the current queue (FIFO) and append its matches to the result.
The fuel argument makes the embedding total; the C loop itself runs
until the queue is empty and can diverge only on cyclic filesystems. -/
def findAux (fs : FS) (u : usage) : Nat → List String → List String → List String
  | 0, _, result => result
  | _ + 1, [], result => result
  | fuel + 1, cur :: queue, result =>
    match fs.readdir cur with
    | none => findAux fs u fuel queue result
    | some entries =>
      let p := processEntries fs u cur entries
      findAux fs u fuel (queue ++ p.1) (result ++ p.2)

/-- Embedding of `find` (find.cpp lines 122-157): breadth-first
traversal seeded with the root path, returning the match list. -/
def find (fs : FS) (u : usage) (fuel : Nat) : List String :=
  findAux fs u fuel [u.path] []

/-- Embedding of the argument vector the child builds in `execute`
(find.cpp lines 166-172): one `push_back` per match-list entry, in
order, then the `nullptr` terminator; `none` models the null slot.  No
slot holds the program's own name. -/
def execArgs (result : List String) : List (Option String) :=
  (result.foldl (fun acc file => acc ++ [some file]) []) ++ [none]

/-- Final disposition of a run of `main`: `crashed` is abnormal
termination inside `parse_arguments` (failure status, nothing printed
beyond the help text, no traversal); `usageError` is the explicit
`exit(EXIT_FAILURE)` after printing the parse-failure reason, also
before any traversal; `completed` carries the match list that is
printed one path per line, plus the `execv` call (program path and
argument vector) made iff an executable was configured. -/
inductive MainResult where
  | crashed (e : RunErr)
  | usageError (reason : String)
  | completed (matched : List String) (execCall : Option (String × List (Option String)))
deriving DecidableEq, Repr

/-- Whether a main result reached (and completed) the traversal. -/
def MainResult.isCompleted : MainResult → Bool
  | .completed _ _ => true
  | _ => false

/-- Observable outcome of `main` (find.cpp lines 200-223):
`printedWarning` records whether the `argc <= 1` warning was printed
before parsing began. -/
structure MainRun where
  printedWarning : Bool
  result : MainResult
deriving DecidableEq, Repr

/-- Embedding of `main`: print help (always), warn when `argc <= 1`
but continue, parse, exit with failure when the parser cleared the
global `ok` flag, otherwise traverse, print the matches and run the
executor iff one was configured. -/
def main_model (fs : FS) (fuel : Nat) (argv : List String) : MainRun :=
  { printedWarning := argv.length ≤ 1
    result :=
      match parse_arguments argv with
      | .error e => .crashed e
      | .ok pr =>
        if pr.ok then
          let found := find fs pr.arguments fuel
          .completed found
            (if pr.arguments.needs_exec ≠ 0 then
              some (pr.arguments.exec_path, execArgs found)
            else none)
        else .usageError pr.reason }

/-- A small concrete filesystem used to witness the traversal
theorems: a root with a 50-byte file, a subdirectory holding a 150-byte
file, and an unreadable subdirectory. -/
def exampleFS : FS where
  readdir := fun p =>
    if p = "root" then some [".", "..", "a.txt", "sub", "bad"]
    else if p = "root/sub" then some ["b.txt"]
    else none
  lstat := fun p =>
    if p = "root/a.txt" then some ⟨10, 50, 1, false⟩
    else if p = "root/sub" then some ⟨11, 4096, 2, true⟩
    else if p = "root/bad" then some ⟨12, 4096, 2, true⟩
    else if p = "root/sub/b.txt" then some ⟨13, 150, 1, false⟩
    else none

/-- The no-filter configuration rooted at "root". -/
def u0 : usage := { path := "root" }

/-- Flatten a list of (flag, value) pairs into a flat argument tail. -/
def flattenPairs : List (String × String) → List String
  | [] => []
  | p :: ps => p.1 :: p.2 :: flattenPairs ps

/-- A (flag, value) pair the option loop consumes without failing:
a known flag whose value, where a number or size spec is expected,
parses without an exception. -/
def goodPair (p : String × String) : Prop :=
  (p.1 = "-inum" ∧ ∃ n, stoul p.2 = .ok n) ∨
  p.1 = "-name" ∨
  (p.1 = "-size" ∧ (signChar p.2 = '-' ∨ signChar p.2 = '=' ∨ signChar p.2 = '+') ∧
    ∃ n, stoul (p.2.drop 1) = .ok n) ∨
  (p.1 = "-nlinks" ∧ ∃ n, stoul p.2 = .ok n) ∨
  p.1 = "-exec"

/-- C1: for every well-formed filter configuration and every entry, the
matcher returns true iff the entry satisfies every active filter (a pure
logical AND over the active subset; unconfigured filters are vacuously
true); in particular with no filters configured it returns true. -/
theorem check_is_and_over_active_filters
    (u : usage) (sb : Stat) (name : String) (hwf : sizeWF u) :
    (check u sb name = true ↔ satisfiesActive u sb name) ∧
    (u.needs_nlinks = 0 → u.needs_name = 0 → u.needs_inum = 0 →
      u.size_sign = NOSIZE → check u sb name = true) := by
  constructor
  · by_cases h1 : u.needs_nlinks ≠ 0 <;> by_cases h2 : u.needs_name ≠ 0 <;>
      by_cases h3 : u.needs_inum ≠ 0 <;>
      rcases hwf with h4 | h4 | h4 | h4 <;>
      simp [check, satisfiesActive, h1, h2, h3, h4, NOSIZE] <;> tauto
  · intro h1 h2 h3 h4
    simp [check, h1, h2, h3, h4]

/-- C1 witness: a concrete configuration with only the name filter
active, on a concrete entry. -/
theorem check_is_and_witness :
    sizeWF { path := "r", needs_name := 1, name := "a.txt" } ∧
    ((check { path := "r", needs_name := 1, name := "a.txt" }
        ⟨7, 50, 1, false⟩ "a.txt" = true) ↔
      satisfiesActive { path := "r", needs_name := 1, name := "a.txt" }
        ⟨7, 50, 1, false⟩ "a.txt") :=
  ⟨Or.inl rfl,
    (check_is_and_over_active_filters _ _ _ (Or.inl rfl)).1⟩

/-- C2: with only the size filter configured, sign `-1` matches exactly
the entries strictly smaller than the threshold, sign `0` exactly those
equal to it, and sign `1` exactly those strictly larger. -/
theorem size_filter_is_strict
    (u : usage) (sb : Stat) (name : String)
    (hn : u.needs_nlinks = 0) (hm : u.needs_name = 0) (hi : u.needs_inum = 0) :
    (u.size_sign = -1 → (check u sb name = true ↔ sb.st_size < u.size)) ∧
    (u.size_sign = 0 → (check u sb name = true ↔ sb.st_size = u.size)) ∧
    (u.size_sign = 1 → (check u sb name = true ↔ sb.st_size > u.size)) := by
  refine ⟨fun h => ?_, fun h => ?_, fun h => ?_⟩ <;>
    simp [check, hn, hm, hi, h, NOSIZE]

/-- C2 witness: the `-size -100` configuration on a 50-byte entry. -/
theorem size_filter_witness :
    ({ path := "r", size_sign := -1, size := 100 } : usage).needs_nlinks = 0 ∧
    (check { path := "r", size_sign := -1, size := 100 } ⟨7, 50, 1, false⟩ "f" = true ↔
      (50 : Int) < 100) :=
  ⟨rfl,
    (size_filter_is_strict { path := "r", size_sign := -1, size := 100 }
      ⟨7, 50, 1, false⟩ "f" rfl rfl rfl).1 rfl⟩

/-- Every path in the match component of `processEntries` was
successfully `lstat`ed and classified as a non-directory. -/
theorem processEntries_snd_nondir (fs : FS) (u : usage) (cur : String) :
    ∀ (l : List String) (p : String), p ∈ (processEntries fs u cur l).2 →
      ∃ sb, fs.lstat p = some sb ∧ sb.isDir = false := by
  intro l
  induction l with
  | nil => intro p hp; simp [processEntries] at hp
  | cons name rest ih =>
    intro p hp
    by_cases hdot : name = "." ∨ name = ".."
    · rw [processEntries, if_pos hdot] at hp
      exact ih p hp
    · rw [processEntries, if_neg hdot] at hp
      cases hls : fs.lstat (cur ++ "/" ++ name) with
      | none => simp only [hls] at hp; exact ih p hp
      | some sb =>
        simp only [hls] at hp
        by_cases hdir : sb.isDir = true
        · simp only [hdir, if_true] at hp
          exact ih p hp
        · by_cases hchk : check u sb name = true
          · simp [hdir, hchk] at hp
            rcases hp with hp | hp
            · refine ⟨sb, ?_, ?_⟩
              · rw [hp]; exact hls
              · simpa using hdir
            · exact ih p hp
          · simp [hdir, hchk] at hp
            exact ih p hp

/-- Any path in the traversal output is either carried over from the
accumulated result or is a successfully `lstat`ed non-directory. -/
theorem findAux_mem_result (fs : FS) (u : usage) :
    ∀ (fuel : Nat) (q res : List String) (p : String), p ∈ findAux fs u fuel q res →
      p ∈ res ∨ ∃ sb, fs.lstat p = some sb ∧ sb.isDir = false := by
  intro fuel
  induction fuel with
  | zero => intro q res p h; exact Or.inl (by simpa [findAux] using h)
  | succ n ih =>
    intro q res p h
    cases q with
    | nil => exact Or.inl (by simpa [findAux] using h)
    | cons cur queue =>
      cases hrd : fs.readdir cur with
      | none =>
        rw [findAux, hrd] at h
        exact ih queue res p h
      | some entries =>
        rw [findAux, hrd] at h
        rcases ih _ _ _ h with hres | hgood
        · rcases List.mem_append.1 hres with h1 | h2
          · exact Or.inl h1
          · exact Or.inr (processEntries_snd_nondir fs u cur entries p h2)
        · exact Or.inr hgood

/-- C3: every element of the final match list was classified by its
link-unaware metadata as a non-directory; no directory is ever passed
to the matcher or recorded. -/
theorem matchlist_never_contains_directory
    (fs : FS) (u : usage) (fuel : Nat) (p : String)
    (hp : p ∈ find fs u fuel) :
    ∃ sb, fs.lstat p = some sb ∧ sb.isDir = false := by
  rcases findAux_mem_result fs u fuel [u.path] [] p hp with h | h
  · simp at h
  · exact h

/-- C3 witness: a concrete traversal whose first output entry is indeed
a non-directory. -/
theorem matchlist_no_directory_witness :
    "root/a.txt" ∈ find exampleFS u0 10 ∧
    ∃ sb, exampleFS.lstat "root/a.txt" = some sb ∧ sb.isDir = false :=
  ⟨by decide,
    matchlist_never_contains_directory exampleFS u0 10 "root/a.txt" (by decide)⟩

/-- Accumulated matches are carried through the traversal unchanged, in
front of everything discovered later. -/
theorem findAux_acc_append (fs : FS) (u : usage) :
    ∀ (fuel : Nat) (q a b : List String),
      findAux fs u fuel q (a ++ b) = a ++ findAux fs u fuel q b := by
  intro fuel
  induction fuel with
  | zero => intro q a b; simp [findAux]
  | succ n ih =>
    intro q a b
    cases q with
    | nil => simp [findAux]
    | cons cur queue =>
      cases hrd : fs.readdir cur with
      | none => rw [findAux, hrd, findAux, hrd]; exact ih queue a b
      | some entries =>
        simp only [findAux, hrd]
        rw [List.append_assoc]
        exact ih _ a _

/-- C4: traversal I/O failures are non-fatal and local.  First: a
directory whose listing fails is skipped and the remaining queue is
processed exactly as if it were absent.  Second: a child whose `lstat`
fails is skipped and the remaining children are processed exactly as
before.  Third: already-collected results are never removed or
reordered — they form a prefix of the final result. -/
theorem traversal_failures_are_nonfatal :
    (∀ (fs : FS) (u : usage) (fuel : Nat) (d : String) (q res : List String),
      fs.readdir d = none →
      findAux fs u (fuel + 1) (d :: q) res = findAux fs u fuel q res) ∧
    (∀ (fs : FS) (u : usage) (cur name : String) (rest : List String),
      ¬(name = "." ∨ name = "..") → fs.lstat (cur ++ "/" ++ name) = none →
      processEntries fs u cur (name :: rest) = processEntries fs u cur rest) ∧
    (∀ (fs : FS) (u : usage) (fuel : Nat) (q res : List String),
      findAux fs u fuel q res = res ++ findAux fs u fuel q []) := by
  refine ⟨fun fs u fuel d q res h => ?_, fun fs u cur name rest hdot hls => ?_,
    fun fs u fuel q res => ?_⟩
  · rw [findAux, h]
  · rw [processEntries, if_neg hdot, hls]
  · have := findAux_acc_append fs u fuel q res []
    rw [List.append_nil] at this
    exact this

/-- C4 witness: with the concrete filesystem, an unreadable directory
at the head of the queue is skipped, an unstatable child is skipped,
and an already-collected entry survives a full traversal. -/
theorem traversal_failures_witness :
    (findAux exampleFS u0 3 ("nosuch" :: ["root/sub"]) ["kept"]
      = findAux exampleFS u0 2 ["root/sub"] ["kept"]) ∧
    (processEntries exampleFS u0 "root" ["ghost", "a.txt"]
      = processEntries exampleFS u0 "root" ["a.txt"]) ∧
    (findAux exampleFS u0 5 ["root"] ["kept"]
      = ["kept"] ++ findAux exampleFS u0 5 ["root"] []) :=
  ⟨traversal_failures_are_nonfatal.1 exampleFS u0 2 "nosuch" ["root/sub"] ["kept"]
      (by decide),
    traversal_failures_are_nonfatal.2.1 exampleFS u0 "root" "ghost" ["a.txt"]
      (by decide) (by decide),
    traversal_failures_are_nonfatal.2.2 exampleFS u0 5 ["root"] ["kept"]⟩

/-- The child's argument-vector loop appends exactly one slot per match,
in order. -/
theorem execArgs_foldl (l : List String) :
    ∀ acc : List (Option String),
      l.foldl (fun acc file => acc ++ [some file]) acc = acc ++ l.map some := by
  induction l with
  | nil => intro acc; simp
  | cons x xs ih => intro acc; simp [ih]

/-- C7: the argument vector handed to `execv` is exactly the match list
(in order) followed by the null terminator; with an empty match list it
is the terminator alone, and otherwise argument 0 is the first matched
path — there is no slot for the program's own name. -/
theorem exec_argv_is_matchlist_plus_terminator :
    ∀ result : List String,
      execArgs result = result.map some ++ [none] ∧
      execArgs [] = [none] ∧
      ∀ (x : String) (xs : List String), (execArgs (x :: xs)).head? = some (some x) := by
  intro result
  refine ⟨?_, by simp [execArgs], fun x xs => ?_⟩
  · rw [execArgs, execArgs_foldl]
    simp
  · rw [execArgs, execArgs_foldl]
    simp

/-- The option loop consumes a run of good pairs and continues on the
remaining tail with some updated configuration. -/
theorem parseLoop_goodPairs :
    ∀ (ps : List (String × String)) (args : usage) (tail : List String),
      (∀ p ∈ ps, goodPair p) →
      ∃ args', parseLoop args (flattenPairs ps ++ tail) = parseLoop args' tail := by
  intro ps
  induction ps with
  | nil => intro args tail _; exact ⟨args, by simp [flattenPairs]⟩
  | cons hd ps ih =>
    intro args tail h
    have hhd : goodPair hd := h hd (List.mem_cons_self hd ps)
    have hps : ∀ p ∈ ps, goodPair p := fun p hp => h p (List.mem_cons_of_mem hd hp)
    rcases hhd with ⟨hf, n, hn⟩ | hf | ⟨hf, hsgn, n, hn⟩ | ⟨hf, n, hn⟩ | hf
    · obtain ⟨args', ha⟩ := ih { args with needs_inum := 1, inum := n } tail hps
      exact ⟨args', by simp [flattenPairs, parseLoop, hf, hn, ha]⟩
    · obtain ⟨args', ha⟩ := ih { args with needs_name := 1, name := hd.2 } tail hps
      exact ⟨args', by simp [flattenPairs, parseLoop, hf, ha]⟩
    · rcases hsgn with hs | hs | hs
      · obtain ⟨args', ha⟩ := ih { args with size_sign := -1, size := toOff n } tail hps
        exact ⟨args', by simp [flattenPairs, parseLoop, hf, hs, hn, ha]⟩
      · obtain ⟨args', ha⟩ := ih { args with size_sign := 0, size := toOff n } tail hps
        exact ⟨args', by simp [flattenPairs, parseLoop, hf, hs, hn, ha]⟩
      · obtain ⟨args', ha⟩ := ih { args with size_sign := 1, size := toOff n } tail hps
        exact ⟨args', by simp [flattenPairs, parseLoop, hf, hs, hn, ha]⟩
    · obtain ⟨args', ha⟩ := ih { args with needs_nlinks := 1, nlinks := n } tail hps
      exact ⟨args', by simp [flattenPairs, parseLoop, hf, hn, ha]⟩
    · obtain ⟨args', ha⟩ := ih { args with needs_exec := 1, exec_path := hd.2 } tail hps
      exact ⟨args', by simp [flattenPairs, parseLoop, hf, ha]⟩

/-- C5: an unknown flag reached by the option loop (any earlier pairs
being well-formed) makes parsing fail with reason "Unknown option", and
the program exits with failure status before any traversal: the result
is `usageError`, with no matched-path output and no match list. -/
theorem unknown_option_fails_before_traversal
    (fs : FS) (fuel : Nat) (prog path : String) (ps : List (String × String))
    (flag v : String) (rest : List String)
    (hps : ∀ p ∈ ps, goodPair p)
    (h1 : flag ≠ "-inum") (h2 : flag ≠ "-name") (h3 : flag ≠ "-size")
    (h4 : flag ≠ "-nlinks") (h5 : flag ≠ "-exec") :
    (main_model fs fuel (prog :: path :: (flattenPairs ps ++ flag :: v :: rest))).result
      = .usageError "Unknown option" := by
  obtain ⟨args', ha⟩ := parseLoop_goodPairs ps { path := path } (flag :: v :: rest) hps
  simp [main_model, parse_arguments, ha, parseLoop, h1, h2, h3, h4, h5]

/-- C5 witness: the spec's own example `-bogus x`, after one good pair. -/
theorem unknown_option_witness :
    (∀ p ∈ [("-name", "a.txt")], goodPair p) ∧
    (main_model exampleFS 10
        ["find", "root", "-name", "a.txt", "-bogus", "x"]).result
      = .usageError "Unknown option" := by
  have hps : ∀ p ∈ [("-name", "a.txt")], goodPair p := by
    intro p hp
    rw [List.mem_singleton] at hp
    rw [hp]
    exact Or.inr (Or.inl rfl)
  exact ⟨hps,
    unknown_option_fails_before_traversal exampleFS 10 "find" "root"
      [("-name", "a.txt")] "-bogus" "x" [] hps
      (by decide) (by decide) (by decide) (by decide) (by decide)⟩

/-- C6: a value that `std::stoul` cannot parse, supplied to `-inum` or
`-nlinks` (first part) or after a valid `-size` sign character (second
part), raises an uncaught exception: the process aborts with a runtime
diagnostic and failure status before any traversal occurs. -/
theorem nonnumeric_value_terminates_before_traversal :
    (∀ (fs : FS) (fuel : Nat) (prog path : String) (ps : List (String × String))
        (flag v : String) (rest : List String) (e : StoulErr),
      (∀ p ∈ ps, goodPair p) → (flag = "-inum" ∨ flag = "-nlinks") →
      stoul v = .error e →
      (main_model fs fuel (prog :: path :: (flattenPairs ps ++ flag :: v :: rest))).result
        = .crashed (.exception e)) ∧
    (∀ (fs : FS) (fuel : Nat) (prog path : String) (ps : List (String × String))
        (v : String) (rest : List String) (e : StoulErr),
      (∀ p ∈ ps, goodPair p) →
      (signChar v = '-' ∨ signChar v = '=' ∨ signChar v = '+') →
      stoul (v.drop 1) = .error e →
      (main_model fs fuel (prog :: path :: (flattenPairs ps ++ "-size" :: v :: rest))).result
        = .crashed (.exception e)) := by
  constructor
  · intro fs fuel prog path ps flag v rest e hps hflag hv
    rcases hflag with hf | hf
    · subst hf
      obtain ⟨args', ha⟩ :=
        parseLoop_goodPairs ps { path := path } ("-inum" :: v :: rest) hps
      simp [main_model, parse_arguments, ha, parseLoop, hv]
    · subst hf
      obtain ⟨args', ha⟩ :=
        parseLoop_goodPairs ps { path := path } ("-nlinks" :: v :: rest) hps
      simp [main_model, parse_arguments, ha, parseLoop, hv]
  · intro fs fuel prog path ps v rest e hps hsgn hv
    obtain ⟨args', ha⟩ := parseLoop_goodPairs ps { path := path } ("-size" :: v :: rest) hps
    rcases hsgn with hs | hs | hs <;>
      simp [main_model, parse_arguments, ha, parseLoop, hs, hv]

/-- C6 witness: `-inum abc` aborts with `invalid_argument` before any
traversal. -/
theorem nonnumeric_value_witness :
    stoul "abc" = .error .invalidArgument ∧
    (main_model exampleFS 10 ["find", "root", "-inum", "abc"]).result
      = .crashed (.exception .invalidArgument) :=
  ⟨rfl,
    nonnumeric_value_terminates_before_traversal.1 exampleFS 10 "find" "root"
      [] "-inum" "abc" [] .invalidArgument (by intro p hp; cases hp)
      (Or.inl rfl) rfl⟩

/-- C8 counterexample: with the trailing unpaired flag `-inum`, the
loop body does run (`i = argc - 1 < argc`) and constructs the value
string from `argv[argc]`, the null terminator — undefined behaviour —
so parsing is not the silent no-op the claim describes: dropping the
trailing flag changes the outcome. -/
theorem trailing_flag_reads_null_value_cex :
    parse_arguments ["find", "path", "-inum"] = .error .nullStringUB ∧
    parse_arguments ["find", "path", "-inum"] ≠ parse_arguments ["find", "path"] := by
  refine ⟨rfl, ?_⟩
  have h2 : parse_arguments ["find", "path"] = .ok ⟨{ path := "path" }, true, ""⟩ := rfl
  rw [h2]
  intro h
  exact Except.noConfusion h

/-- C8 amended: for every argument list whose option tail has odd
length (well-formed pairs followed by one trailing flag), the loop body
executes for the trailing flag and reads `argv[argc]` — the null argv
terminator — as its value before even inspecting the flag;
`std::string` from a null pointer is undefined behaviour, so the
trailing flag is not silently ignored. -/
theorem trailing_flag_is_undefined_behavior
    (prog path : String) (ps : List (String × String)) (flag : String)
    (hps : ∀ p ∈ ps, goodPair p) :
    parse_arguments (prog :: path :: (flattenPairs ps ++ [flag]))
      = .error .nullStringUB := by
  obtain ⟨args', ha⟩ := parseLoop_goodPairs ps { path := path } [flag] hps
  simp [parse_arguments, ha, parseLoop]

/-- C8 witness: a good pair followed by a trailing `-nlinks`. -/
theorem trailing_flag_witness :
    (∀ p ∈ [("-name", "x")], goodPair p) ∧
    parse_arguments ["find", "d", "-name", "x", "-nlinks"] = .error .nullStringUB := by
  have hps : ∀ p ∈ [("-name", "x")], goodPair p := by
    intro p hp
    rw [List.mem_singleton] at hp
    rw [hp]
    exact Or.inr (Or.inl rfl)
  exact ⟨hps,
    trailing_flag_is_undefined_behavior "find" "d" [("-name", "x")] "-nlinks" hps⟩

/-- C9 counterexample: invoked with only the program name, the program
does print the warning, but it never reaches traversal: `parse_arguments`
reads `argv[1]` — the null argv terminator — into `std::string`, which
is undefined behaviour, so the run does not complete a traversal. -/
theorem no_args_never_reaches_traversal_cex :
    (main_model exampleFS 10 ["find"]).printedWarning = true ∧
    (main_model exampleFS 10 ["find"]).result = .crashed .nullStringUB ∧
    MainResult.isCompleted (main_model exampleFS 10 ["find"]).result = false :=
  ⟨rfl, rfl, rfl⟩

/-- C9 amended: with no arguments the program prints the warning and
does continue (it does not exit at that point) into argument parsing,
where reading the missing root path `argv[1]` — the null terminator —
is undefined behaviour; traversal is never reached. -/
theorem no_args_warns_then_crashes_in_parse
    (fs : FS) (fuel : Nat) (prog : String) :
    (main_model fs fuel [prog]).printedWarning = true ∧
    (main_model fs fuel [prog]).result = .crashed .nullStringUB :=
  ⟨rfl, rfl⟩

/-- C10 counterexample: a `-` followed by digits is not always
accepted: when the digit magnitude does not fit in 64 bits, `std::stoul`
throws `out_of_range`, and with `-inum` that uncaught exception aborts
the program instead of configuring the filter. -/
theorem huge_negative_value_out_of_range_cex :
    stoul "-18446744073709551616" = .error .outOfRange ∧
    parse_arguments ["find", "path", "-inum", "-18446744073709551616"]
      = .error (.exception .outOfRange) :=
  ⟨rfl, rfl⟩

/-- C10 amended: for every value string of a `-` followed by digits
whose magnitude fits in 64 bits, `std::stoul` succeeds and yields the
negation of the digit value modulo `2^64`, and `-inum` (resp.
`-nlinks`) stores exactly that wrapped value with no parse error. -/
theorem negative_numeric_value_wraps_modulo
    (s : String) (ds : List Char)
    (hs : s.data = '-' :: ds) (hne : ds ≠ []) (hdig : ∀ c ∈ ds, c.isDigit)
    (hlt : digitsVal ds < 2 ^ 64) :
    stoul s = .ok ((2 ^ 64 - digitsVal ds) % 2 ^ 64) ∧
    (∀ prog path : String,
      parse_arguments [prog, path, "-inum", s] =
        .ok ⟨{ path := path, needs_inum := 1,
               inum := (2 ^ 64 - digitsVal ds) % 2 ^ 64 }, true, ""⟩) ∧
    (∀ prog path : String,
      parse_arguments [prog, path, "-nlinks", s] =
        .ok ⟨{ path := path, needs_nlinks := 1,
               nlinks := (2 ^ 64 - digitsVal ds) % 2 ^ 64 }, true, ""⟩) := by
  have htake : ds.takeWhile Char.isDigit = ds :=
    List.takeWhile_eq_self_iff.mpr hdig
  have hnle : ¬(2 ^ 64 ≤ digitsVal ds) := Nat.not_le.mpr hlt
  have hstoul : stoul s = .ok ((2 ^ 64 - digitsVal ds) % 2 ^ 64) := by
    simp only [stoul, hs, List.dropWhile_cons,
      show isCSpace '-' = false from rfl, Bool.false_eq_true, if_false,
      htake, hne, hnle]
    simp [htake, hne, hnle]
  refine ⟨hstoul, fun prog path => ?_, fun prog path => ?_⟩ <;>
    simp [parse_arguments, parseLoop, hstoul]

/-- C10 witness: the concrete value `-5` configures the inode filter to
`2^64 - 5`. -/
theorem negative_numeric_value_witness :
    ("-5".data = '-' :: ['5']) ∧
    stoul "-5" = .ok ((2 ^ 64 - digitsVal ['5']) % 2 ^ 64) ∧
    parse_arguments ["find", "r", "-inum", "-5"] =
      .ok ⟨{ path := "r", needs_inum := 1,
             inum := (2 ^ 64 - digitsVal ['5']) % 2 ^ 64 }, true, ""⟩ := by
  have h := negative_numeric_value_wraps_modulo "-5" ['5'] rfl (by decide)
    (by decide) (by decide)
  exact ⟨rfl, h.1, h.2.1 "find" "r"⟩

end OsFind
